import Mathlib

/-!
Verification of the IntelliDiff unified-diff parser and reference comparator.

The definitions below are a shallow embedding of `src/utils/diffParser.ts`
(`parseGitDiff`) and of the pure cores of `src/services/gitService.ts`
(`compareRefs`, `getFileDiff`, `mapGitStatusToFileStatus`, `isFileBinary`,
`getFileStatus`).  Strings are modelled as `List Char` (JS strings indexed by
code unit); the JS regular expressions used by the parser are modelled by
explicit matchers with the same leftmost-match, greedy-with-backtracking
semantics.
-/

namespace IntelliDiff

/-- `FileStatus` enum from `src/models/gitTypes.ts`. -/
inductive FileStatus where
  | ADDED
  | MODIFIED
  | DELETED
  | RENAMED
  | BINARY
deriving DecidableEq, Repr

/-- `ChangeType` enum from `src/models/gitTypes.ts`. -/
inductive ChangeType where
  | ADD
  | DELETE
  | NORMAL
deriving DecidableEq, Repr

/-- `DiffChange` from `src/models/gitTypes.ts` (the optional `lineNumber`
field is never written by any code under verification and is omitted). -/
structure DiffChange where
  type : ChangeType
  content : List Char
deriving DecidableEq, Repr

/-- `DiffChunk` from `src/models/gitTypes.ts`. -/
structure DiffChunk where
  oldStart : Nat
  oldLines : Nat
  newStart : Nat
  newLines : Nat
  changes : List DiffChange
deriving DecidableEq, Repr

/-- `FileDiff` from `src/models/gitTypes.ts`; the optional `oldContent` /
`newContent` fields are `none` when absent (JS `undefined`). -/
structure FileDiff where
  oldPath : List Char
  newPath : List Char
  status : FileStatus
  isBinary : Bool
  chunks : List DiffChunk
  oldContent : Option (List Char) := none
  newContent : Option (List Char) := none
deriving DecidableEq, Repr

/-- `DiffFile` from `src/models/gitTypes.ts` (produced by `compareRefs`). -/
structure DiffFile where
  oldPath : List Char
  newPath : List Char
  status : FileStatus
  additions : Nat
  deletions : Nat
  isBinary : Bool
deriving DecidableEq, Repr

/-! ### Regex models -/

/-- Maximal leading run of decimal digits (the greedy `\d+`): its numeric
value (`parseInt`) and the rest of the string; `none` when no leading digit. -/
def takeDigits (l : List Char) : Option (Nat × List Char) :=
  let ds := l.takeWhile (·.isDigit)
  if ds.isEmpty then none
  else some (ds.foldl (fun n c => 10 * n + (c.toNat - '0'.toNat)) 0, l.dropWhile (·.isDigit))

/-- Consume a literal prefix, or fail. -/
def dropLit (lit l : List Char) : Option (List Char) :=
  if lit.isPrefixOf l then some (l.drop lit.length) else none

/-- The optional count group `(?:,(\d+))?` of the hunk-header regex.  When a
comma follows it must be followed by digits: backtracking cannot instead skip
the group, because the literal required after the group starts with a space,
which can match neither the comma nor a digit. -/
def optCount : List Char → Option (Option Nat × List Char)
  | ',' :: r => (takeDigits r).map (fun p => (some p.1, p.2))
  | l => some (none, l)

/-- Match `@@ -(\d+)(?:,(\d+))? \+(\d+)(?:,(\d+))? @@` at the start of the
string, returning the four capture groups. -/
def hunkFieldsAt (l : List Char) : Option (Nat × Option Nat × Nat × Option Nat) := do
  let r ← dropLit ("@@ -".data) l
  let (a, r) ← takeDigits r
  let (b, r) ← optCount r
  let r ← dropLit (" +".data) r
  let (c, r) ← takeDigits r
  let (d, r) ← optCount r
  let _ ← dropLit (" @@".data) r
  pure (a, b, c, d)

/-- `line.match(/@@ -(\d+)(?:,(\d+))? \+(\d+)(?:,(\d+))? @@/)`: the regex is
unanchored, so the leftmost start position that matches wins. -/
def hunkFields : List Char → Option (Nat × Option Nat × Nat × Option Nat)
  | [] => none
  | c :: rest => (hunkFieldsAt (c :: rest)).orElse fun _ => hunkFields rest

/-- `String.prototype.includes`: substring containment. -/
def containsSeq (pat : List Char) : List Char → Bool
  | [] => pat.isEmpty
  | c :: rest => pat.isPrefixOf (c :: rest) || containsSeq pat rest

/-- Characters matchable by `.` in a JS regex (anything but a line terminator). -/
def isDotChar (c : Char) : Bool :=
  c ≠ '\n' && c ≠ '\r' && c.toNat ≠ 0x2028 && c.toNat ≠ 0x2029

/-- The trailing `(.*) differ` of the binary-marker regex: greedy, so the
longest dot-run whose remainder still matches the literal is preferred. -/
def grabDiffer : List Char → Option (List Char)
  | [] => none
  | c :: rest =>
    match (if isDotChar c then (grabDiffer rest).map (c :: ·) else none) with
    | some g => some g
    | none => if (" differ".data).isPrefixOf (c :: rest) then some [] else none

/-- The `(.*) and b\/(.*) differ` tail of the binary-marker regex. -/
def grabAndB : List Char → Option (List Char × List Char)
  | [] => none
  | c :: rest =>
    match (if isDotChar c then (grabAndB rest).map (fun p => (c :: p.1, p.2)) else none) with
    | some g => some g
    | none =>
      if (" and b/".data).isPrefixOf (c :: rest) then
        (grabDiffer ((c :: rest).drop 7)).map (fun g2 => ([], g2))
      else none

/-- `l.match(/Binary files a\/(.*) and b\/(.*) differ/)`: leftmost start,
greedy capture groups; returns the two captured paths. -/
def binaryPaths : List Char → Option (List Char × List Char)
  | [] => none
  | c :: rest =>
    if ("Binary files a/".data).isPrefixOf (c :: rest) then
      match grabAndB ((c :: rest).drop 15) with
      | some g => some g
      | none => binaryPaths rest
    else binaryPaths rest

/-! ### The parser state machine (`parseGitDiff`) -/

/-- The two pieces of mutable scan state plus the accumulated output. -/
structure ParseState where
  results : List FileDiff
  currentFile : Option FileDiff
  currentChunk : Option DiffChunk
deriving DecidableEq, Repr

/-- The fresh file record built at each `diff --git` line. -/
def newFileRecord : FileDiff :=
  { oldPath := [], newPath := [], status := .MODIFIED, isBinary := false, chunks := [] }

/-- Push the current chunk onto a file's chunk list (the
`currentFile.chunks.push(currentChunk)` step; the `currentChunk.changes`
guard is always truthy since `changes` is always an array). -/
def flushChunk (f : FileDiff) : Option DiffChunk → FileDiff
  | some c => { f with chunks := f.chunks ++ [c] }
  | none => f

/-- `results.push(currentFile)` when a file is open (its `chunks` field is
always an array, hence always truthy). -/
def pushCurrent (st : ParseState) : List FileDiff :=
  match st.currentFile with
  | some f => st.results ++ [f]
  | none => st.results

/-- The file record built when the binary-marker lookahead fires. -/
def mkBinaryFile (bl : List Char) : FileDiff :=
  match binaryPaths bl with
  | some (o, n) => { newFileRecord with isBinary := true, oldPath := o, newPath := n }
  | none => { newFileRecord with isBinary := true }

/-- The `+++ b/` header handling: record the new path, then resolve the
status against the `/dev/null` sentinel (ADDED overwrites the old path with
the just-recorded new path, DELETED overwrites the new path with the old). -/
def resolveNewPath (f : FileDiff) (np : List Char) : FileDiff :=
  if f.oldPath = ("/dev/null".data) then
    { f with newPath := np, status := .ADDED, oldPath := np }
  else if np = ("/dev/null".data) then
    { f with newPath := f.oldPath, status := .DELETED }
  else
    { f with newPath := np }

/-- One loop iteration of `parseGitDiff` for every line that is not a
`diff --git` file header (those need lookahead and are handled in
`parseLines`).  Mirrors the `else if` chain of the source. -/
def step (st : ParseState) (line : List Char) : ParseState :=
  match st.currentFile with
  | some f =>
    if ("--- a/".data).isPrefixOf line then
      { st with currentFile := some { f with oldPath := line.drop 6 } }
    else if ("+++ b/".data).isPrefixOf line then
      { st with currentFile := some (resolveNewPath f (line.drop 6)) }
    else if ("@@".data).isPrefixOf line then
      match hunkFields line with
      | some (a, b, c, d) =>
        { st with currentFile := some (flushChunk f st.currentChunk),
                  currentChunk := some ⟨a, b.getD 1, c, d.getD 1, []⟩ }
      | none =>
        { st with currentFile := some (flushChunk f st.currentChunk), currentChunk := none }
    else
      match st.currentChunk with
      | some ch =>
        if f.isBinary then st
        else if line.head? = some '+' then
          { st with currentChunk := some { ch with changes := ch.changes ++ [⟨.ADD, line.drop 1⟩] } }
        else if line.head? = some '-' then
          { st with currentChunk := some { ch with changes := ch.changes ++ [⟨.DELETE, line.drop 1⟩] } }
        else if line.head? = some ' ' then
          { st with currentChunk := some { ch with changes := ch.changes ++ [⟨.NORMAL, line.drop 1⟩] } }
        else st
      | none => st
  | none => st

/-- The line-scan loop of `parseGitDiff`.  On a `diff --git` line the open
file is pushed (without flushing the open chunk — faithful to the source),
a fresh record is started, and the three-line window `lines.slice(i, i+3)`
is searched for a binary marker; when one is found the two lookahead lines
are skipped (`i += 2; continue`). -/
def parseLines (st : ParseState) : List (List Char) → ParseState
  | [] => st
  | line :: rest =>
    if ("diff --git".data).isPrefixOf line then
      match (line :: rest.take 2).find? (fun l => containsSeq ("Binary files".data) l) with
      | some bl =>
        match rest with
        | _ :: _ :: rest2 => parseLines ⟨pushCurrent st, some (mkBinaryFile bl), none⟩ rest2
        | _ => ⟨pushCurrent st, some (mkBinaryFile bl), none⟩
      | none => parseLines ⟨pushCurrent st, some newFileRecord, none⟩ rest
    else
      parseLines (step st line) rest

/-- The flush after the scan loop: push the open chunk into the open file,
then push the open file. -/
def finish (st : ParseState) : List FileDiff :=
  match st.currentFile with
  | some f => st.results ++ [flushChunk f st.currentChunk]
  | none => st.results

def initState : ParseState := ⟨[], none, none⟩

/-- `parseGitDiff` from `src/utils/diffParser.ts`: split on `'\n'` and scan. -/
def parseGitDiff (diffOutput : String) : List FileDiff :=
  finish (parseLines initState (diffOutput.data.splitOn '\n'))

/-! ### The reference comparator (`GitService`) -/

/-- `GitService.mapGitStatusToFileStatus`: switch on `status.charAt(0)`. -/
def mapGitStatusToFileStatus (status : List Char) : FileStatus :=
  match status.head? with
  | some 'A' => .ADDED
  | some 'D' => .DELETED
  | some 'R' => .RENAMED
  | _ => .MODIFIED

/-- `parseInt(s, 10)` for the plain digit strings appearing in numstat counts
(non-numeric input, `NaN` in JS, is mapped to 0; such rows are only ever
consulted through the `'-'`/`'-'` binary check). -/
def parseIntNat (l : List Char) : Nat :=
  ((takeDigits l).map (·.1)).getD 0

/-- One row of the name-status loop body in `GitService.compareRefs`:
`const [status, ...paths] = line.split('\t')`.  A path field that is absent
(JS `undefined`) is modelled as the empty string; the claims only exercise
rows carrying all their fields. -/
def parseNameStatusLine (line : List Char) : DiffFile :=
  let parts := line.splitOn '\t'
  let status := parts.headD []
  let paths := parts.tail
  if ("R".data).isPrefixOf status then
    { oldPath := paths.getD 0 [], newPath := paths.getD 1 [],
      status := .RENAMED, additions := 0, deletions := 0, isBinary := false }
  else
    let filePath := paths.getD 0 []
    { oldPath := filePath, newPath := filePath,
      status := mapGitStatusToFileStatus status,
      additions := 0, deletions := 0, isBinary := false }

/-- Update the first element satisfying the predicate (the in-place mutation
of the record returned by `files.find(...)`). -/
def updateFirst (p : α → Bool) (upd : α → α) : List α → List α
  | [] => []
  | x :: xs => if p x then upd x :: xs else x :: updateFirst p upd xs

/-- One row of the numstat loop in `GitService.compareRefs`:
`const [additions, deletions, filePath] = statLine.split('\t')`; the first
file whose `newPath` or `oldPath` equals the row's path is updated, a row
matching no file is ignored. -/
def applyNumstatLine (files : List DiffFile) (statLine : List Char) : List DiffFile :=
  let parts := statLine.splitOn '\t'
  let additions := parts.getD 0 []
  let deletions := parts.getD 1 []
  let filePath := parts.getD 2 []
  updateFirst (fun f => f.newPath == filePath || f.oldPath == filePath)
    (fun f =>
      if additions = ("-".data) ∧ deletions = ("-".data) then { f with isBinary := true }
      else { f with additions := parseIntNat additions, deletions := parseIntNat deletions })
    files

/-- The name-status pass of `GitService.compareRefs` applied to the raw
`git diff --name-status` output (`split('\n').filter(Boolean)`). -/
def compareFiles (nameStatusOutput : String) : List DiffFile :=
  ((nameStatusOutput.data.splitOn '\n').filter (fun l => !l.isEmpty)).map parseNameStatusLine

/-- Pure core of `GitService.compareRefs`: the two collaborator outputs
(name-status listing and numstat listing) are passed in as text. -/
def compareRefsModel (nameStatusOutput numstatOutput : String) : List DiffFile :=
  ((numstatOutput.data.splitOn '\n').filter (fun l => !l.isEmpty)).foldl
    applyNumstatLine (compareFiles nameStatusOutput)

/-- `GitService.isFileBinary`: some numstat row has `'-'` for both counts. -/
def isFileBinaryModel (numstatOutput : String) : Bool :=
  ((numstatOutput.data.splitOn '\n').filter (fun l => !l.isEmpty)).any (fun line =>
    let parts := line.splitOn '\t'
    parts.getD 0 [] == ("-".data) && parts.getD 1 [] == ("-".data))

/-- `GitService.getFileStatus`: map the status letter of the first
name-status row, defaulting to MODIFIED when there is none. -/
def getFileStatusModel (nameStatusOutput : String) : FileStatus :=
  match (nameStatusOutput.data.splitOn '\n').filter (fun l => !l.isEmpty) with
  | [] => .MODIFIED
  | l :: _ => mapGitStatusToFileStatus ((l.splitOn '\t').headD [])

/-- Pure core of `GitService.getFileDiff`: the collaborator outputs (numstat
for the path, name-status for the path, the `-U10000` diff text and the two
content snapshots) are passed in; the `throw` on an empty parse is `none`. -/
def getFileDiffModel (filePath : String) (numstatOut nameStatusOut diffOut : String)
    (oldContent newContent : Option (List Char)) : Option FileDiff :=
  if isFileBinaryModel numstatOut then
    some { oldPath := filePath.data, newPath := filePath.data,
           status := getFileStatusModel nameStatusOut, isBinary := true, chunks := [] }
  else
    match parseGitDiff diffOut with
    | [] => none
    | fd :: _ => some { fd with oldContent := oldContent, newContent := newContent }

/-! ### Invariant predicates used by the theorems below -/

/-- The property that a binary file record carries no parsed content lines. -/
def binaryEmpty (f : FileDiff) : Prop :=
  f.isBinary = true → ∀ c ∈ f.chunks, c.changes = []

/-- Scan-state invariant behind the binary/no-content property: every emitted
file and the open file satisfy it, and when the open file is binary the open
chunk has collected no changes. -/
def InvBin (st : ParseState) : Prop :=
  (∀ f ∈ st.results, binaryEmpty f) ∧
  (∀ f, st.currentFile = some f → f.isBinary = true →
    (∀ c ∈ f.chunks, c.changes = []) ∧ (∀ ch, st.currentChunk = some ch → ch.changes = []))

/-- The status values the text parser can produce. -/
def statusOK (s : FileStatus) : Prop := s = .ADDED ∨ s = .DELETED ∨ s = .MODIFIED

/-- Scan-state invariant behind the status-range property. -/
def InvStat (st : ParseState) : Prop :=
  (∀ f ∈ st.results, statusOK f.status) ∧
  (∀ f, st.currentFile = some f → statusOK f.status)

/-! ### Helper lemmas -/

@[simp] theorem flushChunk_none (f : FileDiff) : flushChunk f none = f := rfl

@[simp] theorem flushChunk_some (f : FileDiff) (c : DiffChunk) :
    flushChunk f (some c) = { f with chunks := f.chunks ++ [c] } := rfl

theorem flushChunk_isBinary (f : FileDiff) (o : Option DiffChunk) :
    (flushChunk f o).isBinary = f.isBinary := by cases o <;> rfl

theorem flushChunk_status (f : FileDiff) (o : Option DiffChunk) :
    (flushChunk f o).status = f.status := by cases o <;> rfl

theorem resolveNewPath_isBinary (f : FileDiff) (np : List Char) :
    (resolveNewPath f np).isBinary = f.isBinary := by
  unfold resolveNewPath; split_ifs <;> rfl

theorem resolveNewPath_chunks (f : FileDiff) (np : List Char) :
    (resolveNewPath f np).chunks = f.chunks := by
  unfold resolveNewPath; split_ifs <;> rfl

theorem resolveNewPath_status (f : FileDiff) (np : List Char) :
    (resolveNewPath f np).status = .ADDED ∨ (resolveNewPath f np).status = .DELETED ∨
      (resolveNewPath f np).status = f.status := by
  unfold resolveNewPath; split_ifs <;> simp

theorem mkBinaryFile_chunks (bl : List Char) : (mkBinaryFile bl).chunks = [] := by
  unfold mkBinaryFile
  rcases binaryPaths bl with _ | ⟨o, n⟩ <;> rfl

theorem mkBinaryFile_status (bl : List Char) : (mkBinaryFile bl).status = .MODIFIED := by
  unfold mkBinaryFile
  rcases binaryPaths bl with _ | ⟨o, n⟩ <;> rfl

theorem exists_append_of_isPrefixOf (l1 : List Char) :
    ∀ l2, l1.isPrefixOf l2 = true → ∃ t, l2 = l1 ++ t := by
  induction l1 with
  | nil => intro l2 _; exact ⟨l2, rfl⟩
  | cons a l1 ih =>
      intro l2 h
      cases l2 with
      | nil => simp [List.isPrefixOf] at h
      | cons b l2 =>
          rw [show List.isPrefixOf (a :: l1) (b :: l2) = ((a == b) && List.isPrefixOf l1 l2) from rfl,
              Bool.and_eq_true, beq_iff_eq] at h
          obtain ⟨t, rfl⟩ := ih l2 h.2
          exact ⟨t, by simp [h.1]⟩

theorem parseLines_cons_step (st : ParseState) (l : List Char) (rest : List (List Char))
    (h : ("diff --git".data).isPrefixOf l = false) :
    parseLines st (l :: rest) = parseLines (step st l) rest := by
  rw [parseLines.eq_def]
  simp [h]

theorem splitOn_sep (sep : Char) (xs : List Char) (h : sep ∉ xs) (r : List Char) :
    (xs ++ sep :: r).splitOn sep = xs :: r.splitOn sep := by
  unfold List.splitOn
  refine List.splitOnP_first _ _ (fun x hx => ?_) sep (by simp) r
  simp only [beq_iff_eq]
  exact fun e => h (e ▸ hx)

theorem splitOn_no_sep (sep : Char) (xs : List Char) (h : sep ∉ xs) :
    xs.splitOn sep = [xs] := by
  unfold List.splitOn
  refine List.splitOnP_eq_single _ _ (fun x hx => ?_)
  simp only [beq_iff_eq]
  exact fun e => h (e ▸ hx)

theorem updateFirst_of_none {α : Type} (p : α → Bool) (u : α → α) (l : List α)
    (h : ∀ x ∈ l, p x = false) : updateFirst p u l = l := by
  induction l with
  | nil => rfl
  | cons x xs ih =>
      rw [updateFirst, h x (by simp), if_neg (by simp)]
      rw [ih fun y hy => h y (by simp [hy])]


theorem step_invBin (st : ParseState) (l : List Char) (h : InvBin st) : InvBin (step st l) := by
  obtain ⟨h1, h2⟩ := h
  unfold step
  split
  next f hcf =>
    have hf := h2 f hcf
    split_ifs with ha hb hc hbin hp hm hs
    · -- "--- a/": only oldPath changes
      refine ⟨h1, ?_⟩
      rintro g hg hb2
      injection hg with hg
      subst hg
      exact ⟨(hf hb2).1, (hf hb2).2⟩
    · -- "+++ b/": only paths/status change
      refine ⟨h1, ?_⟩
      rintro g hg hb2
      injection hg with hg
      subst hg
      rw [resolveNewPath_isBinary] at hb2
      rw [resolveNewPath_chunks]
      exact ⟨(hf hb2).1, (hf hb2).2⟩
    · -- "@@": flush the open chunk, then open a fresh chunk or none
      split
      next a b c d heq =>
        refine ⟨h1, ?_⟩
        rintro g hg hb2
        injection hg with hg
        subst hg
        rw [flushChunk_isBinary] at hb2
        constructor
        · cases hcc : st.currentChunk with
          | none => simpa using (hf hb2).1
          | some ch =>
              intro c2 hc2
              rcases (by simpa using hc2 : c2 ∈ f.chunks ∨ c2 = ch) with h' | hceq
              · exact (hf hb2).1 c2 h'
              · rw [hceq]; exact (hf hb2).2 ch hcc
        · rintro ch2 hch2
          injection hch2 with hch2
          subst hch2
          rfl
      next heq =>
        refine ⟨h1, ?_⟩
        rintro g hg hb2
        injection hg with hg
        subst hg
        rw [flushChunk_isBinary] at hb2
        constructor
        · cases hcc : st.currentChunk with
          | none => simpa using (hf hb2).1
          | some ch =>
              intro c2 hc2
              rcases (by simpa using hc2 : c2 ∈ f.chunks ∨ c2 = ch) with h' | hceq
              · exact (hf hb2).1 c2 h'
              · rw [hceq]; exact (hf hb2).2 ch hcc
        · rintro ch2 hch2
          simp at hch2
    · -- binary file: content lines are ignored
      cases st.currentChunk <;> exact ⟨h1, h2⟩
    · -- '+' content line
      cases hcc : st.currentChunk with
      | none => exact ⟨h1, h2⟩
      | some ch =>
          refine ⟨h1, ?_⟩
          rintro g hg hb2
          rw [hcf] at hg
          injection hg with hg
          subst hg
          exact absurd hb2 hbin
    · -- '-' content line
      cases hcc : st.currentChunk with
      | none => exact ⟨h1, h2⟩
      | some ch =>
          refine ⟨h1, ?_⟩
          rintro g hg hb2
          rw [hcf] at hg
          injection hg with hg
          subst hg
          exact absurd hb2 hbin
    · -- ' ' content line
      cases hcc : st.currentChunk with
      | none => exact ⟨h1, h2⟩
      | some ch =>
          refine ⟨h1, ?_⟩
          rintro g hg hb2
          rw [hcf] at hg
          injection hg with hg
          subst hg
          exact absurd hb2 hbin
    · -- any other leading character: no change
      cases st.currentChunk <;> exact ⟨h1, h2⟩
  next hcf => exact ⟨h1, h2⟩

theorem invBin_startFile (st : ParseState) (h : InvBin st) (f : FileDiff)
    (hch : f.chunks = []) : InvBin ⟨pushCurrent st, some f, none⟩ := by
  obtain ⟨h1, h2⟩ := h
  constructor
  · intro g hg
    unfold pushCurrent at hg
    cases hcf : st.currentFile with
    | none => rw [hcf] at hg; exact h1 g hg
    | some f0 =>
        rw [hcf] at hg
        rcases List.mem_append.mp hg with h' | h'
        · exact h1 g h'
        · rw [List.mem_singleton.mp h']
          intro hb
          exact (h2 f0 hcf hb).1
  · rintro g hg hb
    injection hg with hg
    subst hg
    refine ⟨by simp [hch], ?_⟩
    rintro ch hch2
    simp at hch2

theorem parseLines_invBin (st : ParseState) (ls : List (List Char)) :
    InvBin st → InvBin (parseLines st ls) := by
  induction st, ls using parseLines.induct with
  | case1 st => intro h; simpa [parseLines] using h
  | case2 st line hpref g head1 head2 rest2 hfind ih =>
      intro h
      rw [parseLines]
      simp only [hpref, if_true, hfind]
      exact ih (invBin_startFile st h _ (mkBinaryFile_chunks g))
  | case3 st line rest hpref g hfind hshape =>
      intro h
      rw [parseLines]
      simp only [hpref, if_true, hfind]
      rcases rest with _ | ⟨r1, rest'⟩
      · exact invBin_startFile st h _ (mkBinaryFile_chunks g)
      · rcases rest' with _ | ⟨r2, rest''⟩
        · exact invBin_startFile st h _ (mkBinaryFile_chunks g)
        · exact absurd rfl (by intro hcon; exact hshape r1 r2 rest'' hcon)
  | case4 st line rest hpref hfind ih =>
      intro h
      rw [parseLines]
      simp only [hpref, if_true, hfind]
      refine ih (invBin_startFile st h _ rfl)
  | case5 st line rest hpref ih =>
      intro h
      rw [parseLines]
      simp only [hpref, if_false]
      exact ih (step_invBin st line h)

theorem finish_invBin (st : ParseState) (h : InvBin st) : ∀ f ∈ finish st, binaryEmpty f := by
  obtain ⟨h1, h2⟩ := h
  intro g hg
  unfold finish at hg
  cases hcf : st.currentFile with
  | none => rw [hcf] at hg; exact h1 g hg
  | some f =>
      rw [hcf] at hg
      rcases List.mem_append.mp hg with h' | h'
      · exact h1 g h'
      · rw [List.mem_singleton.mp h']
        intro hb
        rw [flushChunk_isBinary] at hb
        cases hcc : st.currentChunk with
        | none => simpa using (h2 f hcf hb).1
        | some ch =>
            intro c2 hc2
            rcases (by simpa using hc2 : c2 ∈ f.chunks ∨ c2 = ch) with h'' | hceq
            · exact (h2 f hcf hb).1 c2 h''
            · rw [hceq]; exact (h2 f hcf hb).2 ch hcc

theorem invBin_init : InvBin initState := by
  constructor
  · intro f hf; simp [initState] at hf
  · intro f hf; simp [initState] at hf

theorem step_invStat (st : ParseState) (l : List Char) (h : InvStat st) :
    InvStat (step st l) := by
  obtain ⟨h1, h2⟩ := h
  unfold step
  split
  next f hcf =>
    have hf := h2 f hcf
    split_ifs with ha hb hc hbin hp hm hs
    · refine ⟨h1, ?_⟩
      rintro g hg
      injection hg with hg
      subst hg
      exact hf
    · refine ⟨h1, ?_⟩
      rintro g hg
      injection hg with hg
      subst hg
      rcases resolveNewPath_status f (l.drop 6) with h' | h' | h'
      · exact Or.inl h'
      · exact Or.inr (Or.inl h')
      · rw [h']; exact hf
    · split
      next a b c d heq =>
        refine ⟨h1, ?_⟩
        rintro g hg
        injection hg with hg
        subst hg
        rw [statusOK, flushChunk_status]
        exact hf
      next heq =>
        refine ⟨h1, ?_⟩
        rintro g hg
        injection hg with hg
        subst hg
        rw [statusOK, flushChunk_status]
        exact hf
    · cases st.currentChunk <;> exact ⟨h1, h2⟩
    · cases hcc : st.currentChunk with
      | none => exact ⟨h1, h2⟩
      | some ch => exact ⟨h1, fun g hg => h2 g hg⟩
    · cases hcc : st.currentChunk with
      | none => exact ⟨h1, h2⟩
      | some ch => exact ⟨h1, fun g hg => h2 g hg⟩
    · cases hcc : st.currentChunk with
      | none => exact ⟨h1, h2⟩
      | some ch => exact ⟨h1, fun g hg => h2 g hg⟩
    · cases st.currentChunk <;> exact ⟨h1, h2⟩
  next hcf => exact ⟨h1, h2⟩

theorem invStat_startFile (st : ParseState) (h : InvStat st) (f : FileDiff)
    (hst : statusOK f.status) : InvStat ⟨pushCurrent st, some f, none⟩ := by
  obtain ⟨h1, h2⟩ := h
  constructor
  · intro g hg
    unfold pushCurrent at hg
    cases hcf : st.currentFile with
    | none => rw [hcf] at hg; exact h1 g hg
    | some f0 =>
        rw [hcf] at hg
        rcases List.mem_append.mp hg with h' | h'
        · exact h1 g h'
        · rw [List.mem_singleton.mp h']
          exact h2 f0 hcf
  · rintro g hg
    injection hg with hg
    subst hg
    exact hst

theorem parseLines_invStat (st : ParseState) (ls : List (List Char)) :
    InvStat st → InvStat (parseLines st ls) := by
  induction st, ls using parseLines.induct with
  | case1 st => intro h; simpa [parseLines] using h
  | case2 st line hpref g head1 head2 rest2 hfind ih =>
      intro h
      rw [parseLines]
      simp only [hpref, if_true, hfind]
      exact ih (invStat_startFile st h _ (by rw [statusOK, mkBinaryFile_status]; simp))
  | case3 st line rest hpref g hfind hshape =>
      intro h
      rw [parseLines]
      simp only [hpref, if_true, hfind]
      rcases rest with _ | ⟨r1, rest'⟩
      · exact invStat_startFile st h _ (by rw [statusOK, mkBinaryFile_status]; simp)
      · rcases rest' with _ | ⟨r2, rest''⟩
        · exact invStat_startFile st h _ (by rw [statusOK, mkBinaryFile_status]; simp)
        · exact absurd rfl (by intro hcon; exact hshape r1 r2 rest'' hcon)
  | case4 st line rest hpref hfind ih =>
      intro h
      rw [parseLines]
      simp only [hpref, if_true, hfind]
      refine ih (invStat_startFile st h _ (by rw [statusOK]; simp [newFileRecord]))
  | case5 st line rest hpref ih =>
      intro h
      rw [parseLines]
      simp only [hpref, if_false]
      exact ih (step_invStat st line h)

theorem finish_invStat (st : ParseState) (h : InvStat st) :
    ∀ f ∈ finish st, statusOK f.status := by
  obtain ⟨h1, h2⟩ := h
  intro g hg
  unfold finish at hg
  cases hcf : st.currentFile with
  | none => rw [hcf] at hg; exact h1 g hg
  | some f =>
      rw [hcf] at hg
      rcases List.mem_append.mp hg with h' | h'
      · exact h1 g h'
      · rw [List.mem_singleton.mp h', statusOK, flushChunk_status]
        exact h2 f hcf

theorem invStat_init : InvStat initState := by
  constructor
  · intro f hf; simp [initState] at hf
  · intro f hf; simp [initState] at hf

/-! ### Step-level theorems shared with no claim (building blocks only) -/

/-! ### Claim theorems -/

/-- Claim C1 (code bug evidence): on two concatenated `diff --git` sections the
parser returns two File records in order, but the first record's hunks are
empty — the hunk open when the second `diff --git` boundary is reached is never
flushed into the first file (only the end-of-input path flushes), so the last
hunk of every non-final section is silently dropped, contradicting the claim. -/
theorem lastHunkOfFirstFileDropped :
    parseGitDiff ("diff --git a/a.txt b/a.txt\n--- a/a.txt\n+++ b/a.txt\n@@ -1 +1 @@\n-old\n+new\ndiff --git a/b.txt b/b.txt\n--- a/b.txt\n+++ b/b.txt\n@@ -1 +1 @@\n-x\n+y") =
      [⟨"a.txt".data, "a.txt".data, .MODIFIED, false, [], none, none⟩,
       ⟨"b.txt".data, "b.txt".data, .MODIFIED, false,
        [⟨1, 1, 1, 1, [⟨.DELETE, "x".data⟩, ⟨.ADD, "y".data⟩]⟩], none, none⟩] := by
  decide

/-- Claim C2: when the recorded old path is the `/dev/null` sentinel, the
`+++ b/` header sets status ADDED and overwrites the old path with the new
path; symmetrically, when the recorded new path is the sentinel (and the old
path is not), status becomes DELETED and the new path is overwritten with the
old path.  The two closed conjuncts run the whole parser on a one-file diff of
each shape and obtain exactly one File with equal paths and the right status. -/
theorem devNullSentinelStatus (st : ParseState) (f : FileDiff) (l : List Char)
    (rest : List (List Char))
    (hcf : st.currentFile = some f)
    (hpp : ("+++ b/".data).isPrefixOf l = true) :
    (f.oldPath = "/dev/null".data →
      parseLines st (l :: rest) =
        parseLines { st with currentFile := some ({ f with status := .ADDED, oldPath := l.drop 6, newPath := l.drop 6 }) } rest)
    ∧ (f.oldPath ≠ "/dev/null".data → l.drop 6 = "/dev/null".data →
      parseLines st (l :: rest) =
        parseLines { st with currentFile := some ({ f with status := .DELETED, newPath := f.oldPath }) } rest)
    ∧ parseGitDiff ("diff --git a/src/new.txt b/src/new.txt\n--- a//dev/null\n+++ b/src/new.txt") =
        [⟨"src/new.txt".data, "src/new.txt".data, .ADDED, false, [], none, none⟩]
    ∧ parseGitDiff ("diff --git a/src/old.txt b/src/old.txt\n--- a/src/old.txt\n+++ b//dev/null") =
        [⟨"src/old.txt".data, "src/old.txt".data, .DELETED, false, [], none, none⟩] := by
  obtain ⟨t, rfl⟩ := exists_append_of_isPrefixOf _ _ hpp
  have hng : ("diff --git".data).isPrefixOf ("+++ b/".data ++ t) = false := by
    simp [List.isPrefixOf]
  refine ⟨?_, ?_, by decide, by decide⟩
  · intro hs
    rw [parseLines_cons_step _ _ _ hng]
    have hstep : step st ("+++ b/".data ++ t) =
        { st with currentFile := some ({ f with status := .ADDED, oldPath := ("+++ b/".data ++ t).drop 6, newPath := ("+++ b/".data ++ t).drop 6 }) } := by
      simp [step, hcf, resolveNewPath, List.isPrefixOf, hs]
    rw [hstep]
  · intro hs hnp
    have hnp2 : t = "/dev/null".data := by simpa using hnp
    rw [parseLines_cons_step _ _ _ hng]
    have hstep : step st ("+++ b/".data ++ t) =
        { st with currentFile := some ({ f with status := .DELETED, newPath := f.oldPath }) } := by
      simp [step, hcf, resolveNewPath, List.isPrefixOf, hs, hnp2]
    rw [hstep]

/-- Witness for C2: the ADDED rule applied at a concrete state and line. -/
theorem devNullSentinelStatusWitness :
    parseLines ⟨[], some ({ newFileRecord with oldPath := "/dev/null".data }), none⟩ ["+++ b/w.txt".data] =
      ⟨[], some ⟨"w.txt".data, "w.txt".data, .ADDED, false, [], none, none⟩, none⟩ :=
  (devNullSentinelStatus ⟨[], some ({ newFileRecord with oldPath := "/dev/null".data }), none⟩
    { newFileRecord with oldPath := "/dev/null".data } ("+++ b/w.txt".data) [] rfl (by decide)).1 rfl

/-- Claim C3: the parser is total by construction (it is a structurally
recursive function on the line list); a line starting `@@` whose text matches
the hunk-header pattern nowhere first flushes the previous open hunk into the
current file and discards the would-be hunk (current chunk becomes none), and
while no current hunk exists any line that is not a recognized marker leaves
the scan state entirely unchanged, so it contributes no Change. -/
theorem malformedHunkHeaderRecovery (st : ParseState) (f : FileDiff) (l : List Char)
    (rest : List (List Char))
    (hcf : st.currentFile = some f)
    (hat : ("@@".data).isPrefixOf l = true)
    (hbad : hunkFields l = none) :
    parseLines st (l :: rest) =
      parseLines { st with currentFile := some (flushChunk f st.currentChunk), currentChunk := none } rest
    ∧ ∀ (st2 : ParseState) (l2 : List Char) (rest2 : List (List Char)),
        st2.currentChunk = none →
        ("diff --git".data).isPrefixOf l2 = false →
        ("--- a/".data).isPrefixOf l2 = false →
        ("+++ b/".data).isPrefixOf l2 = false →
        ("@@".data).isPrefixOf l2 = false →
        parseLines st2 (l2 :: rest2) = parseLines st2 rest2 := by
  constructor
  · obtain ⟨t, rfl⟩ := exists_append_of_isPrefixOf _ _ hat
    have hng : ("diff --git".data).isPrefixOf ("@@".data ++ t) = false := by
      simp [List.isPrefixOf]
    rw [parseLines_cons_step _ _ _ hng]
    have hbad2 : hunkFields ('@' :: '@' :: t) = none := hbad
    have hstep : step st ("@@".data ++ t) =
        { st with currentFile := some (flushChunk f st.currentChunk), currentChunk := none } := by
      simp [step, hcf, List.isPrefixOf, hbad2]
    rw [hstep]
  · intro st2 l2 rest2 hcc h0 h1 h2 h3
    rw [parseLines_cons_step _ _ _ h0]
    have hstep : step st2 l2 = st2 := by
      unfold step
      split
      next f2 hcf2 => simp [h1, h2, h3, hcc]
      next => rfl
    rw [hstep]

/-- Witness for C3: a malformed `@@` line flushes the open hunk and resets
the current chunk, at a concrete state. -/
theorem malformedHunkHeaderRecoveryWitness :
    parseLines ⟨[], some newFileRecord, some ⟨1, 1, 1, 1, []⟩⟩ ["@@ garbage".data] =
      ⟨[], some ({ newFileRecord with chunks := [⟨1, 1, 1, 1, []⟩] }), none⟩ :=
  (malformedHunkHeaderRecovery ⟨[], some newFileRecord, some ⟨1, 1, 1, 1, []⟩⟩ newFileRecord
    ("@@ garbage".data) [] rfl (by decide) (by decide)).1

/-- Claim C4 counterexample: a file section whose binary marker is followed
(after the two skipped lookahead lines) by a well-formed `@@` header yields a
File with isBinary = true and a non-empty hunks list — the header opens an
empty chunk that the end-of-input flush pushes even for a binary file — so
isBinary does not imply empty hunks, refuting the claim as stated. -/
theorem binaryWithHunksCounterexample :
    parseGitDiff ("diff --git a/img.png b/img.png\nBinary files a/img.png and b/img.png differ\nx\n@@ -1 +1 @@") =
      [⟨"img.png".data, "img.png".data, .MODIFIED, true, [⟨1, 1, 1, 1, []⟩], none, none⟩]
    ∧ ¬∀ f ∈ parseGitDiff ("diff --git a/img.png b/img.png\nBinary files a/img.png and b/img.png differ\nx\n@@ -1 +1 @@"),
        f.isBinary = true → f.chunks = [] := by
  constructor
  · decide
  · decide

/-- Claim C4, amended: for every input, a File returned with isBinary = true
carries no parsed content — every chunk in its hunks list has an empty changes
list (hunk records themselves can appear when an `@@` header follows the
binary marker, but they are always empty). -/
theorem binaryFileChunksHaveNoChanges (s : String) (f : FileDiff)
    (hf : f ∈ parseGitDiff s) (hb : f.isBinary = true) :
    ∀ c ∈ f.chunks, c.changes = [] :=
  finish_invBin _ (parseLines_invBin _ _ invBin_init) f hf hb

/-- Witness for the amended C4: a binary file whose section contains a
trailing `@@` header has exactly one (empty) chunk. -/
theorem binaryFileChunksHaveNoChangesWitness :
    ((⟨"p.bin".data, "p.bin".data, .MODIFIED, true, [⟨2, 1, 2, 1, []⟩], none, none⟩ : FileDiff) ∈
        parseGitDiff ("diff --git a/p.bin b/p.bin\nBinary files a/p.bin and b/p.bin differ\nz\n@@ -2 +2 @@")
      ∧ (⟨"p.bin".data, "p.bin".data, .MODIFIED, true, [⟨2, 1, 2, 1, []⟩], none, none⟩ : FileDiff).isBinary = true)
    ∧ ∀ c ∈ (⟨"p.bin".data, "p.bin".data, .MODIFIED, true, [⟨2, 1, 2, 1, []⟩], none, none⟩ : FileDiff).chunks,
        c.changes = [] :=
  ⟨⟨by decide, by decide⟩,
   binaryFileChunksHaveNoChanges
     ("diff --git a/p.bin b/p.bin\nBinary files a/p.bin and b/p.bin differ\nz\n@@ -2 +2 @@")
     ⟨"p.bin".data, "p.bin".data, .MODIFIED, true, [⟨2, 1, 2, 1, []⟩], none, none⟩
     (by decide) (by decide)⟩

/-- Claim C5: a section with the marker `Binary files a/img.png and
b/img.png differ` in the two lines after its `diff --git` header yields one
File with isBinary = true, empty hunks, and both paths extracted from the
marker's two capture groups; the marker short-circuits hunk parsing — the two
skipped lookahead lines (even an `@@` header among them) contribute nothing. -/
theorem binaryMarkerYieldsBinaryFile :
    parseGitDiff ("diff --git a/img.png b/img.png\nBinary files a/img.png and b/img.png differ") =
      [⟨"img.png".data, "img.png".data, .MODIFIED, true, [], none, none⟩]
    ∧ parseGitDiff ("diff --git a/img.png b/img.png\nindex 1234567..89abcde\nBinary files a/img.png and b/img.png differ") =
      [⟨"img.png".data, "img.png".data, .MODIFIED, true, [], none, none⟩]
    ∧ parseGitDiff ("diff --git a/img.png b/img.png\nBinary files a/img.png and b/img.png differ\n@@ -1,2 +1,3 @@") =
      [⟨"img.png".data, "img.png".data, .MODIFIED, true, [], none, none⟩] := by
  refine ⟨by decide, by decide, by decide⟩

/-- Claim C6: `@@ -3,4 +3,6 @@` parses to oldStart 3, oldLines 4, newStart 3,
newLines 6, and `@@ -1 +1,2 @@` parses to oldStart 1, oldLines 1 (the omitted
count defaults to 1), newStart 1, newLines 2. -/
theorem hunkHeaderFieldsParsed :
    parseGitDiff ("diff --git a/x b/x\n--- a/x\n+++ b/x\n@@ -3,4 +3,6 @@") =
      [⟨"x".data, "x".data, .MODIFIED, false, [⟨3, 4, 3, 6, []⟩], none, none⟩]
    ∧ parseGitDiff ("diff --git a/x b/x\n--- a/x\n+++ b/x\n@@ -1 +1,2 @@") =
      [⟨"x".data, "x".data, .MODIFIED, false, [⟨1, 1, 1, 2, []⟩], none, none⟩] := by
  refine ⟨by decide, by decide⟩

/-- Claim C7: with a current hunk open, the current file not binary, and a
line claimed by no higher-priority marker, a leading plus appends an ADD
change, a leading minus a DELETE change, a leading space a NORMAL (context)
change, each carrying exactly the line with its single leading character
removed; a line with any other leading character (or an empty line)
contributes no Change and leaves the state unchanged. -/
theorem contentLineClassification (st : ParseState) (f : FileDiff) (ch : DiffChunk)
    (l : List Char) (rest : List (List Char))
    (hcf : st.currentFile = some f) (hch : st.currentChunk = some ch)
    (hnb : f.isBinary = false)
    (h0 : ("diff --git".data).isPrefixOf l = false)
    (h1 : ("--- a/".data).isPrefixOf l = false)
    (h2 : ("+++ b/".data).isPrefixOf l = false)
    (h3 : ("@@".data).isPrefixOf l = false) :
    (l.head? = some '+' →
      parseLines st (l :: rest) =
        parseLines { st with currentChunk := some ({ ch with changes := ch.changes ++ [⟨.ADD, l.drop 1⟩] }) } rest)
    ∧ (l.head? = some '-' →
      parseLines st (l :: rest) =
        parseLines { st with currentChunk := some ({ ch with changes := ch.changes ++ [⟨.DELETE, l.drop 1⟩] }) } rest)
    ∧ (l.head? = some ' ' →
      parseLines st (l :: rest) =
        parseLines { st with currentChunk := some ({ ch with changes := ch.changes ++ [⟨.NORMAL, l.drop 1⟩] }) } rest)
    ∧ (∀ c : Char, l.head? = some c → c ≠ '+' → c ≠ '-' → c ≠ ' ' →
      parseLines st (l :: rest) = parseLines st rest)
    ∧ (l = [] → parseLines st (l :: rest) = parseLines st rest) := by
  refine ⟨?_, ?_, ?_, ?_, ?_⟩
  · intro hhd
    rw [parseLines_cons_step _ _ _ h0]
    have hstep : step st l = { st with currentChunk := some ({ ch with changes := ch.changes ++ [⟨.ADD, l.drop 1⟩] }) } := by
      simp [step, hcf, hch, h1, h2, h3, hnb, hhd]
    rw [hstep]
  · intro hhd
    rw [parseLines_cons_step _ _ _ h0]
    have hstep : step st l = { st with currentChunk := some ({ ch with changes := ch.changes ++ [⟨.DELETE, l.drop 1⟩] }) } := by
      simp [step, hcf, hch, h1, h2, h3, hnb, hhd]
    rw [hstep]
  · intro hhd
    rw [parseLines_cons_step _ _ _ h0]
    have hstep : step st l = { st with currentChunk := some ({ ch with changes := ch.changes ++ [⟨.NORMAL, l.drop 1⟩] }) } := by
      simp [step, hcf, hch, h1, h2, h3, hnb, hhd]
    rw [hstep]
  · intro c hhd hcp hcm hcs
    rw [parseLines_cons_step _ _ _ h0]
    have hstep : step st l = st := by
      simp [step, hcf, hch, h1, h2, h3, hnb, hhd, hcp, hcm, hcs]
    rw [hstep]
  · intro hnil
    subst hnil
    rw [parseLines_cons_step _ _ _ h0]
    have hstep : step st [] = st := by
      simp [step, hcf, hch, h1, h2, h3, hnb, List.isPrefixOf]
    rw [hstep]

/-- Witness for C7: an added content line at a concrete state. -/
theorem contentLineClassificationWitness :
    parseLines ⟨[], some newFileRecord, some ⟨1, 2, 3, 4, []⟩⟩ ["+abc".data] =
      ⟨[], some newFileRecord, some ⟨1, 2, 3, 4, [⟨.ADD, "abc".data⟩]⟩⟩ :=
  (contentLineClassification ⟨[], some newFileRecord, some ⟨1, 2, 3, 4, []⟩⟩ newFileRecord
    ⟨1, 2, 3, 4, []⟩ ("+abc".data) [] rfl rfl rfl (by decide) (by decide) (by decide) (by decide)).1 rfl

/-- Claim C8: row semantics of the comparator.  A name-status row with letter
A maps to ADDED, D to DELETED, any other letter (notably M) to MODIFIED, and a
letter R with any suffix to RENAMED with the row's two path fields; a
numeric-stat row with the dash placeholder for both counts sets isBinary on
the first file matching its path and leaves the counts untouched (they stay at
the 0 the name-status pass initialized); a numeric-stat row whose path matches
no file leaves the file list unchanged. -/
theorem comparatorRowSemantics :
    (∀ p : List Char, '\t' ∉ p →
       parseNameStatusLine ('A' :: '\t' :: p) = ⟨p, p, .ADDED, 0, 0, false⟩)
    ∧ (∀ p : List Char, '\t' ∉ p →
       parseNameStatusLine ('D' :: '\t' :: p) = ⟨p, p, .DELETED, 0, 0, false⟩)
    ∧ (∀ (c : Char) (p : List Char), c ≠ 'A' → c ≠ 'D' → c ≠ 'R' → c ≠ '\t' → '\t' ∉ p →
       parseNameStatusLine (c :: '\t' :: p) = ⟨p, p, .MODIFIED, 0, 0, false⟩)
    ∧ (∀ sfx p1 p2 : List Char, '\t' ∉ sfx → '\t' ∉ p1 → '\t' ∉ p2 →
       parseNameStatusLine (('R' :: sfx) ++ '\t' :: (p1 ++ '\t' :: p2)) = ⟨p1, p2, .RENAMED, 0, 0, false⟩)
    ∧ (∀ (f : DiffFile) (p : List Char), '\t' ∉ p → (f.newPath = p ∨ f.oldPath = p) →
       applyNumstatLine [f] ('-' :: '\t' :: '-' :: '\t' :: p) = [{ f with isBinary := true }])
    ∧ (∀ (files : List DiffFile) (a b p : List Char), '\t' ∉ a → '\t' ∉ b → '\t' ∉ p →
       (∀ f ∈ files, f.newPath ≠ p ∧ f.oldPath ≠ p) →
       applyNumstatLine files (a ++ '\t' :: b ++ '\t' :: p) = files) := by
  refine ⟨?_, ?_, ?_, ?_, ?_, ?_⟩
  · intro p hp
    have e : ('A' :: '\t' :: p).splitOn '\t' = ['A'] :: [p] := by
      have := splitOn_sep '\t' ['A'] (by decide) p
      simpa [splitOn_no_sep '\t' p hp] using this
    simp [parseNameStatusLine, e, mapGitStatusToFileStatus, List.isPrefixOf]
  · intro p hp
    have e : ('D' :: '\t' :: p).splitOn '\t' = ['D'] :: [p] := by
      have := splitOn_sep '\t' ['D'] (by decide) p
      simpa [splitOn_no_sep '\t' p hp] using this
    simp [parseNameStatusLine, e, mapGitStatusToFileStatus, List.isPrefixOf]
  · intro c p hA hD hR hT hp
    have e : (c :: '\t' :: p).splitOn '\t' = [c] :: [p] := by
      have := splitOn_sep '\t' [c] (by simp [Ne.symm hT]) p
      simpa [splitOn_no_sep '\t' p hp] using this
    have hmap : mapGitStatusToFileStatus [c] = .MODIFIED := by
      rw [mapGitStatusToFileStatus]
      simp only [List.head?_cons]
      rcases hc : c with _
      split
      all_goals simp_all
    simp [parseNameStatusLine, e, hmap, List.isPrefixOf, Ne.symm hR]
  · intro sfx p1 p2 hsfx hp1 hp2
    have e : List.splitOn '\t' ('R' :: (sfx ++ '\t' :: (p1 ++ '\t' :: p2))) = ['R' :: sfx, p1, p2] := by
      have e1 := splitOn_sep '\t' ('R' :: sfx) (by simp [hsfx]) (p1 ++ '\t' :: p2)
      have e2 := splitOn_sep '\t' p1 hp1 p2
      rw [show ('R' :: (sfx ++ '\t' :: (p1 ++ '\t' :: p2))) = (('R' :: sfx) ++ '\t' :: (p1 ++ '\t' :: p2)) from rfl]
      rw [e1, e2, splitOn_no_sep '\t' p2 hp2]
    simp [parseNameStatusLine, e, List.cons_prefix_cons]
  · intro f p hp hmatch
    have e : ('-' :: '\t' :: '-' :: '\t' :: p).splitOn '\t' = ['-'] :: ['-'] :: [p] := by
      have e1 : List.splitOn '\t' ('-' :: '\t' :: '-' :: '\t' :: p) = ['-'] :: List.splitOn '\t' ('-' :: '\t' :: p) :=
        splitOn_sep '\t' ['-'] (by decide) ('-' :: '\t' :: p)
      have e2 : List.splitOn '\t' ('-' :: '\t' :: p) = ['-'] :: List.splitOn '\t' p :=
        splitOn_sep '\t' ['-'] (by decide) p
      rw [e1, e2, splitOn_no_sep '\t' p hp]
    have hpred : (f.newPath == p || f.oldPath == p) = true := by
      rcases hmatch with h | h <;> simp [h]
    simp [applyNumstatLine, e, updateFirst, hpred]
  · intro files a b p ha hb hp hnone
    have e : (a ++ '\t' :: b ++ '\t' :: p).splitOn '\t' = a :: b :: [p] := by
      have e1 := splitOn_sep '\t' a ha (b ++ '\t' :: p)
      have e2 := splitOn_sep '\t' b hb p
      simpa [e2, splitOn_no_sep '\t' p hp] using e1
    rw [applyNumstatLine]
    simp only [e]
    refine updateFirst_of_none _ _ _ (fun f hf => ?_)
    have := hnone f hf
    simp [List.getD, this.1, this.2]

/-- Witness for C8: the row rules applied at concrete rows. -/
theorem comparatorRowSemanticsWitness :
    parseNameStatusLine ("A\tadded.txt".data) = ⟨"added.txt".data, "added.txt".data, .ADDED, 0, 0, false⟩
    ∧ parseNameStatusLine ("R100\told.txt\tnew.txt".data) = ⟨"old.txt".data, "new.txt".data, .RENAMED, 0, 0, false⟩
    ∧ applyNumstatLine [⟨"m.bin".data, "m.bin".data, .MODIFIED, 0, 0, false⟩] ("-\t-\tm.bin".data) =
        [⟨"m.bin".data, "m.bin".data, .MODIFIED, 0, 0, true⟩]
    ∧ applyNumstatLine [⟨"m.bin".data, "m.bin".data, .MODIFIED, 0, 0, false⟩] ("9\t9\tother.txt".data) =
        [⟨"m.bin".data, "m.bin".data, .MODIFIED, 0, 0, false⟩] := by
  refine ⟨?_, ?_, ?_, ?_⟩
  · exact comparatorRowSemantics.1 ("added.txt".data) (by decide)
  · exact comparatorRowSemantics.2.2.2.1 ("100".data) ("old.txt".data) ("new.txt".data)
      (by decide) (by decide) (by decide)
  · exact comparatorRowSemantics.2.2.2.2.1 ⟨"m.bin".data, "m.bin".data, .MODIFIED, 0, 0, false⟩
      ("m.bin".data) (by decide) (Or.inl rfl)
  · exact comparatorRowSemantics.2.2.2.2.2 [⟨"m.bin".data, "m.bin".data, .MODIFIED, 0, 0, false⟩]
      ("9".data) ("9".data) ("other.txt".data) (by decide) (by decide) (by decide) (by decide)

/-- Claim C9 counterexample: merging the comparator's `R100 old.txt new.txt`
name-status row with the parser's output for a text file does not happen —
getFileDiff returns the parser's provisional MODIFIED status for a file whose
numstat marks it as text, never consulting the name-status letter, so the
claimed RENAMED result is refuted at this concrete input. -/
theorem renameRowNotMergedCounterexample :
    (getFileDiffModel ("new.txt") ("3\t1\tnew.txt") ("R100\told.txt\tnew.txt")
        ("diff --git a/old.txt b/new.txt\n--- a/old.txt\n+++ b/new.txt\n@@ -1 +1 @@\n-a\n+b") none none).map
        FileDiff.status = some FileStatus.MODIFIED
    ∧ some FileStatus.MODIFIED ≠ some FileStatus.RENAMED := by
  refine ⟨by decide, by decide⟩

/-- Claim C9, amended: comparator-derived status and isBinary take precedence
only when the numstat output marks the file binary — getFileDiff then returns
the name-status-derived status (an R row yields RENAMED) with isBinary = true
and ignores the parser entirely; when the numstat reports the file as text the
parser's provisional status is returned unchanged and no merge occurs. -/
theorem comparatorPrecedenceOnlyForBinary :
    (∀ (fp ns nss d : String) (oc nc : Option (List Char)), isFileBinaryModel ns = true →
       getFileDiffModel fp ns nss d oc nc =
         some ⟨fp.data, fp.data, getFileStatusModel nss, true, [], none, none⟩)
    ∧ getFileDiffModel ("new.txt") ("-\t-\tnew.txt") ("R100\told.txt\tnew.txt") ("") none none =
        some ⟨"new.txt".data, "new.txt".data, .RENAMED, true, [], none, none⟩
    ∧ (∀ (fp ns nss d : String) (oc nc : Option (List Char)), isFileBinaryModel ns = false →
       (getFileDiffModel fp ns nss d oc nc).map FileDiff.status =
         ((parseGitDiff d).head?).map FileDiff.status) := by
  refine ⟨?_, by decide, ?_⟩
  · intro fp ns nss d oc nc hb
    simp [getFileDiffModel, hb]
  · intro fp ns nss d oc nc hb
    unfold getFileDiffModel
    rw [if_neg (by simp [hb])]
    cases parseGitDiff d with
    | nil => rfl
    | cons fd tl => rfl

/-- Witness for the amended C9: binary precedence and text pass-through at
concrete collaborator outputs. -/
theorem comparatorPrecedenceOnlyForBinaryWitness :
    (isFileBinaryModel ("-\t-\tq.bin") = true
      ∧ getFileDiffModel ("q.bin") ("-\t-\tq.bin") ("M\tq.bin") ("") none none =
          some ⟨"q.bin".data, "q.bin".data, getFileStatusModel ("M\tq.bin"), true, [], none, none⟩)
    ∧ (isFileBinaryModel ("2\t2\tq.txt") = false
      ∧ (getFileDiffModel ("q.txt") ("2\t2\tq.txt") ("M\tq.txt") ("diff --git a/q.txt b/q.txt") none none).map
            FileDiff.status =
          ((parseGitDiff ("diff --git a/q.txt b/q.txt")).head?).map FileDiff.status) :=
  ⟨⟨by decide, comparatorPrecedenceOnlyForBinary.1 ("q.bin") ("-\t-\tq.bin") ("M\tq.bin") ("") none none (by decide)⟩,
   ⟨by decide, comparatorPrecedenceOnlyForBinary.2.2 ("q.txt") ("2\t2\tq.txt") ("M\tq.txt")
      ("diff --git a/q.txt b/q.txt") none none (by decide)⟩⟩

/-- Claim C10: every File returned by the text parser has status ADDED,
DELETED, or MODIFIED — the parser never assigns RENAMED or BINARY (binary-ness
is reported only through the isBinary flag, and rename classification is left
to the external comparator). -/
theorem parserStatusRange (s : String) (f : FileDiff) (hf : f ∈ parseGitDiff s) :
    f.status = .ADDED ∨ f.status = .DELETED ∨ f.status = .MODIFIED :=
  finish_invStat _ (parseLines_invStat _ _ invStat_init) f hf

/-- Witness for C10 at a concrete added-file diff. -/
theorem parserStatusRangeWitness :
    ((⟨"n.txt".data, "n.txt".data, .ADDED, false, [], none, none⟩ : FileDiff) ∈
        parseGitDiff ("diff --git a/n.txt b/n.txt\n--- a//dev/null\n+++ b/n.txt"))
    ∧ ((⟨"n.txt".data, "n.txt".data, .ADDED, false, [], none, none⟩ : FileDiff).status = .ADDED
        ∨ (⟨"n.txt".data, "n.txt".data, .ADDED, false, [], none, none⟩ : FileDiff).status = .DELETED
        ∨ (⟨"n.txt".data, "n.txt".data, .ADDED, false, [], none, none⟩ : FileDiff).status = .MODIFIED) :=
  ⟨by decide,
   parserStatusRange ("diff --git a/n.txt b/n.txt\n--- a//dev/null\n+++ b/n.txt")
     ⟨"n.txt".data, "n.txt".data, .ADDED, false, [], none, none⟩ (by decide)⟩

end IntelliDiff
